import Mathlib

/-!
# kubeGo: rotating cube demo (src/main.go)

Shallow embedding of the per-frame update `drawgl`, the event switch and render
loop of `main`, the vertex shader text and the static vertex buffer.

Conventions of the embedding.

* `float32` values are taken as elements of an arbitrary linearly ordered field `α`
  with exact arithmetic (instantiated at `ℚ` for evaluation and at `ℝ` where the
  trigonometric functions are needed).  `math.Pi` is the parameter `pi`.
* Calls into the windowing and graphics libraries are recorded, in program order,
  in a trace of `Effect`s.
* The GLSL builtins `cos` and `sin` are parameters of the shader functions.
-/

set_option linter.unusedSectionVars false
set_option maxRecDepth 100000

namespace KubeGo

/-! ## Data model -/

/-- GLSL `vec3`. -/
structure Vec3 (α : Type) where
  x : α
  y : α
  z : α
deriving DecidableEq, Repr

/-- GLSL `vec4`. -/
structure Vec4 (α : Type) where
  x : α
  y : α
  z : α
  w : α
deriving DecidableEq, Repr

/-- The package-level variables of main.go, lines 75-82. -/
structure Globals (α : Type) where
  uniRoll : α
  uniYaw : α
  uniPitch : α
  uniscale : α
  yrot : α
  zrot : α
  xrot : α
  UniScale : Int
deriving DecidableEq, Repr

/-- The events distinguished by the type switch of the render loop; every other
event type falls through the switch. -/
inductive Event where
  | QuitEvent
  | MouseMotionEvent (X Y : Int)
  | JoyDeviceAddedEvent
  | OtherEvent
deriving DecidableEq, Repr

/-- Library calls made by the render loop, recorded in program order.
`PollEvent none` is a poll that returned nil. -/
inductive Effect (α : Type) where
  | PollEvent (e : Option Event)
  | Clear
  | Uniform4f (location : Int) (v0 v1 v2 v3 : α)
  | DrawArrays (first count : Int)
  | Sleep (ms : Nat)
  | GLSwap
deriving DecidableEq, Repr

variable {α : Type} [LinearOrderedField α]

/-- Initial values of the package-level variables (lines 75-82); `UniScale` has
the zero value until `main` stores the uniform location in it. -/
def initGlobals : Globals α :=
  { uniRoll := 0.0
    uniYaw := 1.0
    uniPitch := 0.0
    uniscale := 0.3
    yrot := 20.0
    zrot := 0.0
    xrot := 0.0
    UniScale := 0 }

/-! ## The per-frame update -/

/-- Function `drawgl` (lines 204-220): the new globals and the calls issued. -/
def drawgl (pi : α) (g : Globals α) : Globals α × List (Effect α) :=
  let g := { g with uniYaw := g.yrot * (pi / 180.0) }
  let g := { g with yrot := g.yrot - 1.0 }
  let g := { g with uniPitch := g.zrot * (pi / 180.0) }
  let g := { g with zrot := g.zrot - 0.5 }
  let g := { g with uniRoll := g.xrot * (pi / 180.0) }
  let g := { g with xrot := g.xrot - 0.2 }
  (g, [Effect.Clear,
       Effect.Uniform4f g.UniScale g.uniRoll g.uniYaw g.uniPitch g.uniscale,
       Effect.Clear,
       Effect.DrawArrays 0 (6 * 2 * 3),
       Effect.Sleep 50])

/-- The globals after `n` consecutive calls of `drawgl`. -/
def drawglTimes (pi : α) : Nat → Globals α → Globals α
  | 0, g => g
  | n + 1, g => drawglTimes pi n (drawgl pi g).1

/-! ## The render loop -/

/-- The local `running` of `main`, the package-level variables and the calls
issued so far. -/
structure LoopState (α : Type) where
  running : Bool
  globals : Globals α
  trace : List (Effect α)
deriving DecidableEq, Repr

/-- The type switch on a polled event (lines 177-186).  `enumerateGamepad` reads
the joystick list and changes no variable; the `Printf` of the mouse-motion case
writes to standard output only. -/
def handleEvent (e : Event) (s : LoopState α) : LoopState α :=
  match e with
  | Event.QuitEvent => { s with running := false }
  | Event.MouseMotionEvent X Y =>
    let g := { s.globals with xrot := (Y : α) / 2 }
    let g := { g with yrot := (X : α) / 2 }
    { s with globals := g }
  | Event.JoyDeviceAddedEvent => s
  | Event.OtherEvent => s

/-- The inner `for` of the render loop (line 176) on the events pending in this
iteration: each is polled and handled, then the poll returns nil. -/
def pollEvents : List Event → LoopState α → LoopState α
  | [], s => { s with trace := s.trace ++ [Effect.PollEvent none] }
  | e :: es, s =>
    pollEvents es (handleEvent e { s with trace := s.trace ++ [Effect.PollEvent (some e)] })

/-- One pass through the body of `for running` (lines 176-189). -/
def iteration (pi : α) (batch : List Event) (s : LoopState α) : LoopState α :=
  let s := pollEvents batch s
  let r := drawgl pi s.globals
  { s with globals := r.1, trace := s.trace ++ r.2 ++ [Effect.GLSwap] }

/-- The loop `for running` (lines 175-190) on the pending event queue, given as the
batch of events each successive iteration finds.  The run ends when `running` is
false at the loop test, or when the queue given is used up. -/
def mainLoop (pi : α) : List (List Event) → LoopState α → LoopState α
  | [], s => s
  | b :: bs, s => if s.running then mainLoop pi bs (iteration pi b s) else s

/-- The state in which `main` enters the loop: `running = true` (line 174) and the
uniform location stored in `UniScale` (line 153). -/
def mainStart (loc : Int) : LoopState α :=
  { running := true, globals := { initGlobals with UniScale := loc }, trace := [] }

/-- A per-frame update or the handling of one event. -/
inductive Action where
  | frame
  | handle (e : Event)
deriving DecidableEq, Repr

/-- An arbitrary finite interleaving of per-frame updates and handled events. -/
def exec (pi : α) : List Action → LoopState α → LoopState α
  | [], s => s
  | Action.frame :: as, s =>
    let r := drawgl pi s.globals
    exec pi as { s with globals := r.1, trace := s.trace ++ r.2 }
  | Action.handle e :: as, s => exec pi as (handleEvent e s)

/-- Recognises a draw call. -/
def isDraw : Effect α → Bool
  | Effect.DrawArrays _ _ => true
  | _ => false

/-- Recognises the poll that returned a quit event. -/
def isQuitPoll : Effect α → Bool
  | Effect.PollEvent (some Event.QuitEvent) => true
  | _ => false

/-- Number of draw calls in a trace. -/
def drawCalls (tr : List (Effect α)) : Nat :=
  tr.countP isDraw

/-- Number of draw calls issued after the first quit event was received. -/
def drawsAfterQuit (tr : List (Effect α)) : Nat :=
  drawCalls (tr.dropWhile (fun e => !isQuitPoll e))

/-- The fourth argument of a `Uniform4f` call. -/
def scaleOf : Effect α → Option α
  | Effect.Uniform4f _ _ _ _ v3 => some v3
  | _ => none

/-- The fourth component of each uniform vector pushed in a trace. -/
def pushedScales (tr : List (Effect α)) : List α :=
  tr.filterMap scaleOf

/-- The invariant: the stored scale and every scale pushed so far are 0.3. -/
def ScaleInv (s : LoopState α) : Prop :=
  s.globals.uniscale = 0.3 ∧ ∀ x ∈ pushedScales s.trace, x = 0.3

/-! ## The vertex shader (lines 226-252) -/

/-- Local `scale` of the shader (line 235). -/
def scale (Position : Vec3 α) (scaleMove : Vec4 α) : Vec3 α :=
  ⟨Position.x * scaleMove.w, Position.y * scaleMove.w, Position.z * scaleMove.w⟩

/-- Local `rotatez` (line 237). -/
def rotatez (cos sin : α → α) (scale : Vec3 α) (scaleMove : Vec4 α) : Vec3 α :=
  ⟨scale.x * cos scaleMove.x - scale.y * sin scaleMove.x,
   scale.x * sin scaleMove.x + scale.y * cos scaleMove.x,
   scale.z⟩

/-- Local `rotatey` (line 239). -/
def rotatey (cos sin : α → α) (rotatez : Vec3 α) (scaleMove : Vec4 α) : Vec3 α :=
  ⟨rotatez.x * cos scaleMove.y - rotatez.z * sin scaleMove.y,
   rotatez.y,
   rotatez.x * sin scaleMove.y + rotatez.z * cos scaleMove.y⟩

/-- Local `rotatex` (line 241). -/
def rotatex (cos sin : α → α) (rotatey : Vec3 α) (scaleMove : Vec4 α) : Vec3 α :=
  ⟨rotatey.x,
   rotatey.y * cos scaleMove.z - rotatey.z * sin scaleMove.z,
   rotatey.y * sin scaleMove.z + rotatey.z * cos scaleMove.z⟩

/-- Local `move` (line 243). -/
def move (rotatex : Vec3 α) : Vec3 α :=
  ⟨rotatex.x, rotatex.y, rotatex.z - 0.2⟩

/-- Local `persp` (lines 245-247). -/
def persp (move : Vec3 α) : Vec3 α :=
  ⟨move.x / ((move.z + 2) / 3), move.y / ((move.z + 2) / 3), move.z⟩

/-- The position after the scaling and the three rotation stages: `rotatex` as a
function of the shader inputs. -/
def rotated (cos sin : α → α) (Position : Vec3 α) (scaleMove : Vec4 α) : Vec3 α :=
  rotatex cos sin (rotatey cos sin (rotatez cos sin (scale Position scaleMove)
    scaleMove) scaleMove) scaleMove

/-- The position after the translation: `move` as a function of the shader inputs. -/
def moved (cos sin : α → α) (Position : Vec3 α) (scaleMove : Vec4 α) : Vec3 α :=
  move (rotated cos sin Position scaleMove)

/-- Function `main` of the vertex shader: the value written to `gl_Position`. -/
def vertexShader (cos sin : α → α) (Position : Vec3 α) (scaleMove : Vec4 α) : Vec4 α :=
  let p := persp (moved cos sin Position scaleMove)
  ⟨p.x, p.y, p.z, 1.0⟩

/-- Square of the Euclidean length of a vector. -/
def normSq (v : Vec3 α) : α :=
  v.x * v.x + v.y * v.y + v.z * v.z

/-! ### The transform as the specification words it -/

/-- Standard rotation matrix about the Z axis. -/
def specRotZ (cos sin : α → α) (a : α) : Matrix (Fin 3) (Fin 3) α :=
  !![cos a, -sin a, 0; sin a, cos a, 0; 0, 0, 1]

/-- Standard rotation matrix about the Y axis. -/
def specRotY (cos sin : α → α) (a : α) : Matrix (Fin 3) (Fin 3) α :=
  !![cos a, 0, sin a; 0, 1, 0; -sin a, 0, cos a]

/-- Standard rotation matrix about the X axis. -/
def specRotX (cos sin : α → α) (a : α) : Matrix (Fin 3) (Fin 3) α :=
  !![1, 0, 0; 0, cos a, -sin a; 0, sin a, cos a]

/-- The transform in the words of the specification: scale by `s`, rotate about Z by
`a_z`, then about Y by `a_y`, then about X by `a_x` with the standard matrices,
translate z by -0.2, divide x and y by (z + 2) / 3. -/
def specTransform (cos sin : α → α) (p : Vec3 α) (a_z a_y a_x s : α) : Vec3 α :=
  let v : Fin 3 → α := ![s * p.x, s * p.y, s * p.z]
  let r := (specRotX cos sin a_x).mulVec
    ((specRotY cos sin a_y).mulVec ((specRotZ cos sin a_z).mulVec v))
  let m : Vec3 α := ⟨r 0, r 1, r 2 - 0.2⟩
  ⟨m.x / ((m.z + 2) / 3), m.y / ((m.z + 2) / 3), m.z⟩

/-! ## The vertex buffer and its layout -/

/-- The slice `cubeVertices` (lines 265-314). -/
def cubeVertices : List α :=
  [ -- Bottom
    -1.0, -1.0, -1.0, 0.0, 1.0, 1.0,
    1.0, -1.0, -1.0, 0.0, 1.0, 1.0,
    -1.0, -1.0, 1.0, 0.0, 1.0, 1.0,
    1.0, -1.0, -1.0, 0.0, 1.0, 1.0,
    1.0, -1.0, 1.0, 0.0, 1.0, 1.0,
    -1.0, -1.0, 1.0, 0.0, 1.0, 1.0,
    -- Top
    -1.0, 1.0, -1.0, 1.0, 1.0, 0.0,
    -1.0, 1.0, 1.0, 1.0, 1.0, 0.0,
    1.0, 1.0, -1.0, 1.0, 1.0, 0.0,
    1.0, 1.0, -1.0, 1.0, 1.0, 0.0,
    -1.0, 1.0, 1.0, 1.0, 1.0, 0.0,
    1.0, 1.0, 1.0, 1.0, 1.0, 0.0,
    -- Front
    -1.0, -1.0, 1.0, 0.5, 1.0, 0.5,
    1.0, -1.0, 1.0, 0.5, 1.0, 0.5,
    -1.0, 1.0, 1.0, 0.5, 1.0, 0.5,
    1.0, -1.0, 1.0, 0.5, 1.0, 0.5,
    1.0, 1.0, 1.0, 0.5, 1.0, 0.5,
    -1.0, 1.0, 1.0, 0.5, 1.0, 0.5,
    -- Back
    -1.0, -1.0, -1.0, 1.0, 1.0, 0.0,
    -1.0, 1.0, -1.0, 1.0, 1.0, 0.0,
    1.0, -1.0, -1.0, 1.0, 1.0, 0.0,
    1.0, -1.0, -1.0, 1.0, 1.0, 0.0,
    -1.0, 1.0, -1.0, 1.0, 1.0, 0.0,
    1.0, 1.0, -1.0, 1.0, 1.0, 0.0,
    -- Left
    -1.0, -1.0, 1.0, 1.0, 1.0, 0.0,
    -1.0, 1.0, -1.0, 1.0, 1.0, 0.0,
    -1.0, -1.0, -1.0, 1.0, 1.0, 0.0,
    -1.0, -1.0, 1.0, 1.0, 1.0, 0.0,
    -1.0, 1.0, 1.0, 1.0, 1.0, 0.0,
    -1.0, 1.0, -1.0, 1.0, 1.0, 0.0,
    -- Right
    1.0, -1.0, 1.0, 0.0, 1.0, 1.0,
    1.0, -1.0, -1.0, 0.0, 1.0, 1.0,
    1.0, 1.0, -1.0, 0.0, 1.0, 1.0,
    1.0, -1.0, 1.0, 0.0, 1.0, 1.0,
    1.0, 1.0, -1.0, 0.0, 1.0, 1.0,
    1.0, 1.0, 1.0, 0.0, 1.0, 1.0 ]

/-- Arguments of `VertexAttribPointerWithOffset` for an attribute of FLOAT
components: component count, stride and offset in bytes. -/
structure Attrib where
  size : Nat
  stride : Nat
  offset : Nat
deriving DecidableEq, Repr

/-- Attribute `Position` (line 168). -/
def positionAttrib : Attrib := ⟨3, 6 * 4, 0⟩

/-- Attribute `vertexColor` (line 172). -/
def colorAttrib : Attrib := ⟨3, 6 * 4, 3 * 4⟩

/-- Size in bytes handed to `BufferData` (line 164) for the slice `buf`. -/
def bufferBytes (buf : List α) : Nat := buf.length * 4

/-- Vertex count of the draw call (line 216). -/
def drawCount : Nat := 6 * 2 * 3

/-- Byte offset in the buffer of component `k` of vertex `i` of an attribute. -/
def componentByte (a : Attrib) (i k : Nat) : Nat :=
  a.offset + a.stride * i + 4 * k

/-- First bytes of the floats the pipeline reads for vertex `i` of an attribute. -/
def attribBytes (a : Attrib) (i : Nat) : List Nat :=
  (List.range a.size).map (componentByte a i)

/-- First bytes of all floats read by `DrawArrays(TRIANGLES, first, count)` with
the two attributes enabled, vertex by vertex. -/
def drawReads (first count : Nat) : List Nat :=
  (List.range count).flatMap
    (fun i => attribBytes positionAttrib (first + i) ++ attribBytes colorAttrib (first + i))

/-- The float stored at byte offset `b` of the uploaded buffer, when the four
bytes lie inside it. -/
def floatAt (buf : List α) (b : Nat) : Option α :=
  if b % 4 = 0 then buf[b / 4]? else none

/-- The `vec3` the shader receives for vertex `i` of an attribute. -/
def fetchVec3 (buf : List α) (a : Attrib) (i : Nat) : Option (Vec3 α) :=
  match floatAt buf (componentByte a i 0), floatAt buf (componentByte a i 1),
    floatAt buf (componentByte a i 2) with
  | some x, some y, some z => some ⟨x, y, z⟩
  | _, _, _ => none

/-- The input `Position` of the shader for vertex `i` of the draw call. -/
def vertexPosition (i : Nat) : Option (Vec3 α) :=
  fetchVec3 cubeVertices positionAttrib i

/-! ## Theorems -/

theorem drawglTimes_succ_last (pi : α) (n : Nat) (g : Globals α) :
    drawglTimes pi (n + 1) g = (drawgl pi (drawglTimes pi n g)).1 := by
  induction n generalizing g with
  | zero => rfl
  | succ k ih =>
    show drawglTimes pi (k + 1) (drawgl pi g).1 = _
    rw [ih]
    rfl

theorem drawglTimes_counters (pi : α) (n : Nat) (g : Globals α) :
    (drawglTimes pi n g).yrot = g.yrot - (n : α)
    ∧ (drawglTimes pi n g).zrot = g.zrot - 0.5 * (n : α)
    ∧ (drawglTimes pi n g).xrot = g.xrot - 0.2 * (n : α) := by
  induction n generalizing g with
  | zero => simp [drawglTimes]
  | succ k ih =>
    obtain ⟨h1, h2, h3⟩ := ih (drawgl pi g).1
    simp only [drawglTimes]
    rw [h1, h2, h3]
    simp only [drawgl]
    push_cast
    refine ⟨by ring, by ring, by ring⟩

/-- The calls issued by `drawgl`, in terms of the globals before the call. -/
theorem drawgl_effects (pi : α) (g : Globals α) :
    (drawgl pi g).2 =
      [Effect.Clear,
       Effect.Uniform4f g.UniScale (g.xrot * (pi / 180.0)) (g.yrot * (pi / 180.0))
         (g.zrot * (pi / 180.0)) g.uniscale,
       Effect.Clear,
       Effect.DrawArrays 0 (6 * 2 * 3),
       Effect.Sleep 50] := rfl

theorem drawgl_uniscale (pi : α) (g : Globals α) : (drawgl pi g).1.uniscale = g.uniscale := rfl

theorem drawgl_UniScale (pi : α) (g : Globals α) : (drawgl pi g).1.UniScale = g.UniScale := rfl

theorem drawglTimes_uniscale (pi : α) (n : Nat) (g : Globals α) :
    (drawglTimes pi n g).uniscale = g.uniscale := by
  induction n generalizing g with
  | zero => rfl
  | succ k ih => simp only [drawglTimes]; rw [ih]; rfl

theorem drawglTimes_UniScale (pi : α) (n : Nat) (g : Globals α) :
    (drawglTimes pi n g).UniScale = g.UniScale := by
  induction n generalizing g with
  | zero => rfl
  | succ k ih => simp only [drawglTimes]; rw [ih]; rfl

/-- C1: after N consecutive calls of drawgl the degree counters are
yrot - N, zrot - 0.5 N and xrot - 0.2 N; from the initial state ten calls give
(yrot, zrot, xrot) = (10, -5, -2). -/
theorem C1_counters_after_N_frames (pi : α) (N : Nat) (g : Globals α) :
    ((drawglTimes pi N g).yrot = g.yrot - (N : α)
      ∧ (drawglTimes pi N g).zrot = g.zrot - 0.5 * (N : α)
      ∧ (drawglTimes pi N g).xrot = g.xrot - 0.2 * (N : α))
    ∧ ((drawglTimes pi 10 initGlobals).yrot = 10
      ∧ (drawglTimes pi 10 initGlobals).zrot = -5
      ∧ (drawglTimes pi 10 initGlobals).xrot = -2) := by
  refine ⟨drawglTimes_counters pi N g, ?_⟩
  obtain ⟨h1, h2, h3⟩ := drawglTimes_counters pi 10 initGlobals
  rw [h1, h2, h3]
  simp only [initGlobals]
  norm_num

/-- C2 fails as stated: after the first call of drawgl from the initial state the
stored yaw is not the degree counter yrot, as it is after the call, times pi/180. -/
theorem C2_counterexample :
    (drawgl Real.pi (initGlobals : Globals ℝ)).1.uniYaw
      ≠ (drawgl Real.pi (initGlobals : Globals ℝ)).1.yrot * (Real.pi / 180) := by
  simp only [drawgl, initGlobals]
  intro h
  have hpi : Real.pi ≠ 0 := Real.pi_ne_zero
  apply hpi
  norm_num at h
  linarith

/-- C2 amended: each call of drawgl computes the three radian values from the degree
counters as they are before the call, pushes them, and leaves the counters
decremented, so that after the call each radian is (counter + step) * pi/180; from
the initial state, after ten calls the radians are (11, -4.5, -1.8) * pi/180. -/
theorem C2_radians_from_counters_before_decrement (pi : α) (g : Globals α) :
    ((drawgl pi g).1.uniYaw = g.yrot * (pi / 180)
      ∧ (drawgl pi g).1.uniPitch = g.zrot * (pi / 180)
      ∧ (drawgl pi g).1.uniRoll = g.xrot * (pi / 180))
    ∧ ((drawgl pi g).1.uniYaw = ((drawgl pi g).1.yrot + 1) * (pi / 180)
      ∧ (drawgl pi g).1.uniPitch = ((drawgl pi g).1.zrot + 0.5) * (pi / 180)
      ∧ (drawgl pi g).1.uniRoll = ((drawgl pi g).1.xrot + 0.2) * (pi / 180))
    ∧ (drawgl pi g).2 =
        [Effect.Clear,
         Effect.Uniform4f g.UniScale (drawgl pi g).1.uniRoll (drawgl pi g).1.uniYaw
           (drawgl pi g).1.uniPitch g.uniscale,
         Effect.Clear,
         Effect.DrawArrays 0 36,
         Effect.Sleep 50]
    ∧ ((drawglTimes pi 10 initGlobals).uniYaw = 11 * (pi / 180)
      ∧ (drawglTimes pi 10 initGlobals).uniPitch = -4.5 * (pi / 180)
      ∧ (drawglTimes pi 10 initGlobals).uniRoll = -1.8 * (pi / 180)) := by
  refine ⟨?_, ?_, ?_, ?_⟩
  · simp only [drawgl]
    norm_num
  · simp only [drawgl]
    norm_num
  · simp only [drawgl]
    norm_num
  · obtain ⟨h1, h2, h3⟩ := drawglTimes_counters pi 9 initGlobals
    rw [drawglTimes_succ_last pi 9 initGlobals]
    simp only [drawgl]
    rw [h1, h2, h3]
    simp only [initGlobals]
    norm_num

/-- C3 fails as stated: the event (x=100, y=200) does not set the counter zrot,
the one drawgl decrements by 0.5 and converts into the pitch component, to 100. -/
theorem C3_counterexample :
    (handleEvent (Event.MouseMotionEvent 100 200) (mainStart 0 : LoopState ℚ)).globals.zrot
      ≠ 100 := by
  simp only [handleEvent, mainStart, initGlobals]
  norm_num

/-- C3 amended: a mouse-motion event (X, Y) sets xrot = Y / 2 and yrot = X / 2 and
leaves zrot and every other variable as it was, where xrot is the counter drawgl
decrements by 0.2 and converts into the roll component, yrot the one it decrements
by 1.0 and converts into the yaw component, and zrot the one it decrements by 0.5
and converts into the pitch component; the event (100, 200) leaves yrot = 50 and
xrot = 100. -/
theorem C3_mouse_motion_sets_xrot_yrot (pi : α) (X Y : Int) (s : LoopState α) :
    (handleEvent (Event.MouseMotionEvent X Y) s
        = { s with globals := { s.globals with xrot := (Y : α) / 2, yrot := (X : α) / 2 } })
    ∧ ((drawgl pi s.globals).1.xrot = s.globals.xrot - 0.2
      ∧ (drawgl pi s.globals).1.uniRoll = s.globals.xrot * (pi / 180)
      ∧ (drawgl pi s.globals).1.yrot = s.globals.yrot - 1.0
      ∧ (drawgl pi s.globals).1.uniYaw = s.globals.yrot * (pi / 180)
      ∧ (drawgl pi s.globals).1.zrot = s.globals.zrot - 0.5
      ∧ (drawgl pi s.globals).1.uniPitch = s.globals.zrot * (pi / 180))
    ∧ ((handleEvent (Event.MouseMotionEvent 100 200) s).globals.yrot = 50.0
      ∧ (handleEvent (Event.MouseMotionEvent 100 200) s).globals.xrot = 100.0
      ∧ (handleEvent (Event.MouseMotionEvent 100 200) s).globals.zrot = s.globals.zrot) := by
  refine ⟨rfl, ?_, ?_⟩
  · simp only [drawgl]
    norm_num
  · simp only [handleEvent]
    norm_num

/-- C5: the uniform vector pushed by drawgl is (uniRoll, uniYaw, uniPitch, uniscale)
in this order, where uniRoll is the radian conversion of xrot, the counter
decremented by 0.2, uniYaw that of yrot, decremented by 1.0, and uniPitch that of
zrot, decremented by 0.5. -/
theorem C5_uniform_order (pi : α) (g : Globals α) :
    (drawgl pi g).2 =
        [Effect.Clear,
         Effect.Uniform4f g.UniScale (drawgl pi g).1.uniRoll (drawgl pi g).1.uniYaw
           (drawgl pi g).1.uniPitch (drawgl pi g).1.uniscale,
         Effect.Clear,
         Effect.DrawArrays 0 36,
         Effect.Sleep 50]
    ∧ ((drawgl pi g).1.uniRoll = g.xrot * (pi / 180)
      ∧ (drawgl pi g).1.xrot = g.xrot - 0.2)
    ∧ ((drawgl pi g).1.uniYaw = g.yrot * (pi / 180)
      ∧ (drawgl pi g).1.yrot = g.yrot - 1.0)
    ∧ ((drawgl pi g).1.uniPitch = g.zrot * (pi / 180)
      ∧ (drawgl pi g).1.zrot = g.zrot - 0.5) := by
  refine ⟨?_, ?_, ?_, ?_⟩ <;> simp only [drawgl] <;> norm_num

/-! ### The render loop -/

theorem handleEvent_trace (e : Event) (s : LoopState α) :
    (handleEvent e s).trace = s.trace := by
  cases e <;> rfl

theorem handleEvent_uniscale (e : Event) (s : LoopState α) :
    (handleEvent e s).globals.uniscale = s.globals.uniscale := by
  cases e <;> rfl

theorem handleEvent_running_of_ne (e : Event) (s : LoopState α) (h : e ≠ Event.QuitEvent) :
    (handleEvent e s).running = s.running := by
  cases e <;> first | rfl | exact absurd rfl h

theorem pollEvents_trace (es : List Event) (s : LoopState α) :
    (pollEvents es s).trace
      = s.trace ++ es.map (fun e => Effect.PollEvent (some e)) ++ [Effect.PollEvent none] := by
  induction es generalizing s with
  | nil => simp [pollEvents]
  | cons e es ih =>
    simp only [pollEvents]
    rw [ih, handleEvent_trace]
    simp

theorem pollEvents_uniscale (es : List Event) (s : LoopState α) :
    (pollEvents es s).globals.uniscale = s.globals.uniscale := by
  induction es generalizing s with
  | nil => rfl
  | cons e es ih =>
    simp only [pollEvents]
    rw [ih, handleEvent_uniscale]

theorem pollEvents_running_false (es : List Event) (s : LoopState α)
    (h : s.running = false) : (pollEvents es s).running = false := by
  induction es generalizing s with
  | nil => simpa [pollEvents] using h
  | cons e es ih =>
    simp only [pollEvents]
    apply ih
    cases e <;> simp [handleEvent, h]

theorem pollEvents_running_of_quit (es : List Event) (s : LoopState α)
    (h : Event.QuitEvent ∈ es) : (pollEvents es s).running = false := by
  induction es generalizing s with
  | nil => simp at h
  | cons e es ih =>
    simp only [pollEvents]
    by_cases he : e = Event.QuitEvent
    · subst he
      apply pollEvents_running_false
      rfl
    · apply ih
      rcases List.mem_cons.mp h with h1 | h1
      · exact absurd h1.symm he
      · exact h1

theorem pollEvents_running_of_no_quit (es : List Event) (s : LoopState α)
    (h : Event.QuitEvent ∉ es) : (pollEvents es s).running = s.running := by
  induction es generalizing s with
  | nil => rfl
  | cons e es ih =>
    simp only [pollEvents]
    have he : e ≠ Event.QuitEvent := fun hh => h (by simp [hh])
    have hes : Event.QuitEvent ∉ es := fun hh => h (by simp [hh])
    rw [ih _ hes, handleEvent_running_of_ne _ _ he]

theorem iteration_running (pi : α) (batch : List Event) (s : LoopState α) :
    (iteration pi batch s).running = (pollEvents batch s).running := rfl

theorem iteration_trace (pi : α) (batch : List Event) (s : LoopState α) :
    (iteration pi batch s).trace
      = s.trace ++ batch.map (fun e => Effect.PollEvent (some e)) ++ [Effect.PollEvent none]
          ++ (drawgl pi (pollEvents batch s).globals).2 ++ [Effect.GLSwap] := by
  simp only [iteration]
  rw [pollEvents_trace]

theorem drawCalls_append (a b : List (Effect α)) :
    drawCalls (a ++ b) = drawCalls a + drawCalls b := by
  simp [drawCalls]

theorem drawCalls_polls (es : List Event) :
    drawCalls (es.map (fun e => (Effect.PollEvent (some e) : Effect α))) = 0 := by
  induction es with
  | nil => rfl
  | cons e es ih =>
    simp only [drawCalls, List.map_cons, List.countP_cons, isDraw] at ih ⊢
    simp [ih]

theorem drawCalls_drawgl (pi : α) (g : Globals α) : drawCalls (drawgl pi g).2 = 1 := by
  simp [drawCalls, drawgl, isDraw]

theorem iteration_drawCalls (pi : α) (batch : List Event) (s : LoopState α) :
    drawCalls (iteration pi batch s).trace = drawCalls s.trace + 1 := by
  rw [iteration_trace]
  simp only [drawCalls_append, drawCalls_polls, drawCalls_drawgl]
  simp [drawCalls, isDraw]

theorem dropWhile_append_of_all {β : Type} (p : β → Bool) (a b : List β)
    (h : ∀ x ∈ a, p x = true) : (a ++ b).dropWhile p = b.dropWhile p := by
  induction a with
  | nil => rfl
  | cons x a ih =>
    have hx : p x = true := h x (by simp)
    simp only [List.cons_append, List.dropWhile_cons, hx, if_true]
    exact ih (fun y hy => h y (by simp [hy]))

theorem dropWhile_append_of_exists {β : Type} (p : β → Bool) (a b : List β)
    (h : ∃ x ∈ a, p x = false) : (a ++ b).dropWhile p = a.dropWhile p ++ b := by
  induction a with
  | nil => simp at h
  | cons x a ih =>
    by_cases hx : p x = true
    · simp only [List.cons_append, List.dropWhile_cons, hx, if_true]
      apply ih
      obtain ⟨y, hy, hpy⟩ := h
      rcases List.mem_cons.mp hy with h1 | h1
      · subst h1
        rw [hx] at hpy
        exact absurd hpy (by simp)
      · exact ⟨y, h1, hpy⟩
    · simp [List.dropWhile_cons, hx]

theorem drawCalls_dropWhile_polls (p : Effect α → Bool) (es : List Event) :
    drawCalls ((es.map (fun e => (Effect.PollEvent (some e) : Effect α))).dropWhile p) = 0 := by
  induction es with
  | nil => rfl
  | cons e es ih =>
    simp only [List.map_cons, List.dropWhile_cons]
    split
    · exact ih
    · exact drawCalls_polls (e :: es)

/-- One draw call follows the quit event in the iteration that polls it. -/
theorem iteration_drawsAfterQuit (pi : α) (batch : List Event) (s : LoopState α)
    (hq : Event.QuitEvent ∈ batch) (ht : ∀ e ∈ s.trace, isQuitPoll e = false) :
    drawsAfterQuit (iteration pi batch s).trace = 1 := by
  rw [iteration_trace]
  simp only [drawsAfterQuit, List.append_assoc]
  rw [dropWhile_append_of_all _ _ _ (by intro x hx; simp [ht x hx])]
  rw [dropWhile_append_of_exists]
  · rw [drawCalls_append, drawCalls_dropWhile_polls, drawCalls_append, drawCalls_append,
      drawCalls_drawgl]
    simp [drawCalls, isDraw]
  · exact ⟨Effect.PollEvent (some Event.QuitEvent), List.mem_map.mpr ⟨_, hq, rfl⟩,
      by simp [isQuitPoll]⟩

theorem iteration_no_quit_trace (pi : α) (batch : List Event) (s : LoopState α)
    (hq : Event.QuitEvent ∉ batch) (ht : ∀ e ∈ s.trace, isQuitPoll e = false) :
    ∀ e ∈ (iteration pi batch s).trace, isQuitPoll e = false := by
  intro e he
  rw [iteration_trace, drawgl_effects] at he
  simp only [List.mem_append, List.mem_map, List.mem_cons, List.mem_singleton,
    List.not_mem_nil, or_false] at he
  rcases he with (((h | ⟨a, ha, rfl⟩) | rfl) | h) | rfl
  · exact ht e h
  · cases a <;> first | rfl | exact absurd ha hq
  · rfl
  · rcases h with rfl | rfl | rfl | rfl | rfl <;> rfl
  · rfl

/-- The loop from a running state whose first batches hold no quit event and whose
next batch holds one. -/
theorem mainLoop_until_quit (pi : α) (bs : List (List Event)) (batch : List Event)
    (rest : List (List Event)) (s : LoopState α)
    (hr : s.running = true) (ht : ∀ e ∈ s.trace, isQuitPoll e = false)
    (hbs : ∀ b ∈ bs, Event.QuitEvent ∉ b) (hq : Event.QuitEvent ∈ batch) :
    mainLoop pi (bs ++ batch :: rest) s = mainLoop pi (bs ++ [batch]) s
    ∧ (mainLoop pi (bs ++ batch :: rest) s).running = false
    ∧ drawsAfterQuit (mainLoop pi (bs ++ batch :: rest) s).trace = 1
    ∧ drawCalls (mainLoop pi (bs ++ batch :: rest) s).trace
        = drawCalls s.trace + bs.length + 1 := by
  induction bs generalizing s with
  | nil =>
    have h1 : (iteration pi batch s).running = false := by
      rw [iteration_running]; exact pollEvents_running_of_quit batch s hq
    have h2 : mainLoop pi (batch :: rest) s = iteration pi batch s := by
      cases rest with
      | nil => simp [mainLoop, hr]
      | cons r rs => simp [mainLoop, hr, h1]
    have h3 : mainLoop pi [batch] s = iteration pi batch s := by
      simp [mainLoop, hr]
    simp only [List.nil_append, h2, h3, List.length_nil, Nat.add_zero]
    exact ⟨trivial, h1, iteration_drawsAfterQuit pi batch s hq ht,
      iteration_drawCalls pi batch s⟩
  | cons b bs ih =>
    have hb : Event.QuitEvent ∉ b := hbs b (by simp)
    have hr1 : (iteration pi b s).running = true := by
      rw [iteration_running, pollEvents_running_of_no_quit b s hb]; exact hr
    have ht1 := iteration_no_quit_trace pi b s hb ht
    obtain ⟨i1, i2, i3, i4⟩ := ih (iteration pi b s) hr1 ht1
      (fun c hc => hbs c (by simp [hc]))
    simp only [List.cons_append, mainLoop, hr, if_true]
    refine ⟨i1, i2, i3, ?_⟩
    rw [iteration_drawCalls] at i4
    show drawCalls (mainLoop pi (bs ++ batch :: rest) (iteration pi b s)).trace = _
    rw [i4]
    simp only [List.length_cons]
    omega

theorem handleEvent_globals_congr (e : Event) (s t : LoopState α)
    (h : s.globals = t.globals) : (handleEvent e s).globals = (handleEvent e t).globals := by
  cases e <;> simp [handleEvent, h]

theorem foldl_handleEvent_globals_congr (es : List Event) (s t : LoopState α)
    (h : s.globals = t.globals) :
    (es.foldl (fun st e => handleEvent e st) s).globals
      = (es.foldl (fun st e => handleEvent e st) t).globals := by
  induction es generalizing s t with
  | nil => exact h
  | cons e es ih =>
    simp only [List.foldl_cons]
    exact ih _ _ (handleEvent_globals_congr e s t h)

/-- The variables after the inner poll loop are those left by handling every
polled event in order. -/
theorem pollEvents_globals (es : List Event) (s : LoopState α) :
    (pollEvents es s).globals = (es.foldl (fun st e => handleEvent e st) s).globals := by
  induction es generalizing s with
  | nil => rfl
  | cons e es ih =>
    simp only [pollEvents, List.foldl_cons]
    rw [ih]
    exact foldl_handleEvent_globals_congr es _ _ (handleEvent_globals_congr e _ s rfl)

theorem iteration_globals (pi : α) (batch : List Event) (s : LoopState α) :
    (iteration pi batch s).globals = (drawgl pi (pollEvents batch s).globals).1 := rfl

theorem mainLoop_append_no_quit (pi : α) (bs more : List (List Event)) (s : LoopState α)
    (hr : s.running = true) (hbs : ∀ b ∈ bs, Event.QuitEvent ∉ b) :
    mainLoop pi (bs ++ more) s = mainLoop pi more (mainLoop pi bs s)
    ∧ (mainLoop pi bs s).running = true := by
  induction bs generalizing s with
  | nil => exact ⟨rfl, hr⟩
  | cons b bs ih =>
    have hb : Event.QuitEvent ∉ b := hbs b (by simp)
    have hr1 : (iteration pi b s).running = true := by
      rw [iteration_running, pollEvents_running_of_no_quit b s hb]; exact hr
    simp only [List.cons_append, mainLoop, hr, if_true]
    exact ih (iteration pi b s) hr1 (fun c hc => hbs c (by simp [hc]))

theorem mainLoop_quit_batch (pi : α) (batch : List Event) (rest : List (List Event))
    (s : LoopState α) (hr : s.running = true) (hq : Event.QuitEvent ∈ batch) :
    mainLoop pi (batch :: rest) s = iteration pi batch s := by
  have h1 : (iteration pi batch s).running = false := by
    rw [iteration_running]; exact pollEvents_running_of_quit batch s hq
  cases rest with
  | nil => simp [mainLoop, hr]
  | cons r rs => simp [mainLoop, hr, h1]

theorem mainStart_trace_no_quit (loc : Int) :
    ∀ e ∈ (mainStart loc : LoopState α).trace, isQuitPoll e = false := by
  intro e he
  simp [mainStart] at he

/-- C4 fails as stated: when the only pending event is a quit event, the run of
the loop still issues a draw call after that event was received. -/
theorem C4_counterexample :
    ¬ (drawsAfterQuit
        (mainLoop Real.pi [[Event.QuitEvent]] (mainStart 0 : LoopState ℝ)).trace = 0) := by
  have h := (mainLoop_until_quit Real.pi [] [Event.QuitEvent] [] (mainStart 0 : LoopState ℝ)
    rfl (mainStart_trace_no_quit 0) (by simp) (by simp)).2.2.1
  simp only [List.nil_append] at h
  rw [h]
  decide

/-- C4 amended: in a run of the loop from its start, if the first batches of pending
events hold no quit event and the next batch holds one, then the loop polls and
handles every event of that batch, those after the quit event included, issues
the draw call of that same iteration from the variables as all these events left
them, exactly one draw call after the quit event was received, and terminates at
the end of that iteration: running is false, later batches are never polled, and
the run issued one draw call per iteration. -/
theorem C4_quit_ends_loop_after_one_more_draw (pi : α) (loc : Int)
    (bs : List (List Event)) (batch : List Event) (rest : List (List Event))
    (hbs : ∀ b ∈ bs, Event.QuitEvent ∉ b) (hq : Event.QuitEvent ∈ batch) :
    mainLoop pi (bs ++ batch :: rest) (mainStart loc) = mainLoop pi (bs ++ [batch]) (mainStart loc)
    ∧ (mainLoop pi (bs ++ batch :: rest) (mainStart loc)).running = false
    ∧ drawsAfterQuit (mainLoop pi (bs ++ batch :: rest) (mainStart loc)).trace = 1
    ∧ drawCalls (mainLoop pi (bs ++ batch :: rest) (mainStart loc)).trace = bs.length + 1
    ∧ (mainLoop pi (bs ++ batch :: rest) (mainStart loc)).globals
        = (drawgl pi (batch.foldl (fun st e => handleEvent e st)
            (mainLoop pi bs (mainStart loc))).globals).1
    ∧ (mainLoop pi (bs ++ batch :: rest) (mainStart loc)).trace
        = (mainLoop pi bs (mainStart loc)).trace
          ++ batch.map (fun e => Effect.PollEvent (some e)) ++ [Effect.PollEvent none]
          ++ (drawgl pi (batch.foldl (fun st e => handleEvent e st)
              (mainLoop pi bs (mainStart loc))).globals).2
          ++ [Effect.GLSwap]
    ∧ (∀ pre post : List Event, batch = pre ++ Event.QuitEvent :: post →
        (mainLoop pi (bs ++ batch :: rest) (mainStart loc)).globals
          = (drawgl pi (post.foldl (fun st e => handleEvent e st)
              (handleEvent Event.QuitEvent
                (pre.foldl (fun st e => handleEvent e st)
                  (mainLoop pi bs (mainStart loc))))).globals).1) := by
  obtain ⟨h1, h2, h3, h4⟩ := mainLoop_until_quit pi bs batch rest (mainStart loc) rfl
    (mainStart_trace_no_quit loc) hbs hq
  obtain ⟨k1, k2⟩ := mainLoop_append_no_quit pi bs (batch :: rest) (mainStart loc) rfl hbs
  have hfin : mainLoop pi (bs ++ batch :: rest) (mainStart loc)
      = iteration pi batch (mainLoop pi bs (mainStart loc)) := by
    rw [k1]
    exact mainLoop_quit_batch pi batch rest _ k2 hq
  have hg : (mainLoop pi (bs ++ batch :: rest) (mainStart loc)).globals
      = (drawgl pi (batch.foldl (fun st e => handleEvent e st)
          (mainLoop pi bs (mainStart loc))).globals).1 := by
    rw [hfin, iteration_globals, pollEvents_globals]
  refine ⟨h1, h2, h3, ?_, hg, ?_, ?_⟩
  · rw [h4]
    simp [mainStart, drawCalls]
  · rw [hfin, iteration_trace, pollEvents_globals]
  · intro pre post hsplit
    rw [hg, hsplit, List.foldl_append, List.foldl_cons]

/-- Witness of C4 amended: a mouse-motion batch, then a batch with a quit event
followed by a mouse motion, then a batch that is never polled.  The mouse motion
(5, 6) that follows the quit event is handled: the draw call of that iteration
leaves xrot = 6/2 - 0.2 and yrot = 5/2 - 1. -/
theorem C4_quit_ends_loop_after_one_more_draw_witness :
    (∀ b ∈ [[Event.MouseMotionEvent 3 4]], Event.QuitEvent ∉ b)
    ∧ Event.QuitEvent ∈ [Event.QuitEvent, Event.MouseMotionEvent 5 6]
    ∧ (mainLoop Real.pi
          ([[Event.MouseMotionEvent 3 4]] ++ [Event.QuitEvent, Event.MouseMotionEvent 5 6]
            :: [[Event.OtherEvent]]) (mainStart 7 : LoopState ℝ)).running = false
    ∧ drawsAfterQuit (mainLoop Real.pi
          ([[Event.MouseMotionEvent 3 4]] ++ [Event.QuitEvent, Event.MouseMotionEvent 5 6]
            :: [[Event.OtherEvent]]) (mainStart 7 : LoopState ℝ)).trace = 1
    ∧ (mainLoop Real.pi
          ([[Event.MouseMotionEvent 3 4]] ++ [Event.QuitEvent, Event.MouseMotionEvent 5 6]
            :: [[Event.OtherEvent]]) (mainStart 7 : LoopState ℝ)).globals.xrot = 2.8
    ∧ (mainLoop Real.pi
          ([[Event.MouseMotionEvent 3 4]] ++ [Event.QuitEvent, Event.MouseMotionEvent 5 6]
            :: [[Event.OtherEvent]]) (mainStart 7 : LoopState ℝ)).globals.yrot = 1.5
    ∧ (mainLoop Real.pi
          ([[Event.MouseMotionEvent 3 4]] ++ [Event.QuitEvent, Event.MouseMotionEvent 5 6]
            :: [[Event.OtherEvent]]) (mainStart 7 : LoopState ℝ)).globals.uniRoll
        = 3 * (Real.pi / 180) :=
  ⟨by decide, by decide,
    (C4_quit_ends_loop_after_one_more_draw Real.pi 7 [[Event.MouseMotionEvent 3 4]]
      [Event.QuitEvent, Event.MouseMotionEvent 5 6] [[Event.OtherEvent]]
      (by decide) (by decide)).2.1,
    (C4_quit_ends_loop_after_one_more_draw Real.pi 7 [[Event.MouseMotionEvent 3 4]]
      [Event.QuitEvent, Event.MouseMotionEvent 5 6] [[Event.OtherEvent]]
      (by decide) (by decide)).2.2.1,
    by
      rw [(C4_quit_ends_loop_after_one_more_draw Real.pi 7 [[Event.MouseMotionEvent 3 4]]
        [Event.QuitEvent, Event.MouseMotionEvent 5 6] [[Event.OtherEvent]]
        (by decide) (by decide)).2.2.2.2.1]
      simp only [List.foldl_cons, List.foldl_nil, handleEvent, drawgl]
      norm_num,
    by
      rw [(C4_quit_ends_loop_after_one_more_draw Real.pi 7 [[Event.MouseMotionEvent 3 4]]
        [Event.QuitEvent, Event.MouseMotionEvent 5 6] [[Event.OtherEvent]]
        (by decide) (by decide)).2.2.2.2.1]
      simp only [List.foldl_cons, List.foldl_nil, handleEvent, drawgl]
      norm_num,
    by
      rw [(C4_quit_ends_loop_after_one_more_draw Real.pi 7 [[Event.MouseMotionEvent 3 4]]
        [Event.QuitEvent, Event.MouseMotionEvent 5 6] [[Event.OtherEvent]]
        (by decide) (by decide)).2.2.2.2.1]
      simp only [List.foldl_cons, List.foldl_nil, handleEvent, drawgl]
      norm_num⟩

/-! ### The scale factor -/

theorem pushedScales_append (a b : List (Effect α)) :
    pushedScales (a ++ b) = pushedScales a ++ pushedScales b := by
  simp [pushedScales]

theorem pushedScales_polls (es : List Event) :
    pushedScales (es.map (fun e => (Effect.PollEvent (some e) : Effect α))) = [] := by
  induction es with
  | nil => rfl
  | cons e es ih =>
    simp only [pushedScales, List.map_cons] at ih ⊢
    rw [List.filterMap_cons]
    simp [scaleOf, ih]

theorem pushedScales_drawgl (pi : α) (g : Globals α) :
    pushedScales (drawgl pi g).2 = [g.uniscale] := by
  simp [pushedScales, drawgl, scaleOf]

theorem scaleInv_mainStart (loc : Int) : ScaleInv (mainStart loc : LoopState α) := by
  refine ⟨rfl, ?_⟩
  intro x hx
  simp [mainStart, pushedScales] at hx

theorem scaleInv_handleEvent (e : Event) (s : LoopState α) (h : ScaleInv s) :
    ScaleInv (handleEvent e s) := by
  unfold ScaleInv
  rw [handleEvent_uniscale, handleEvent_trace]
  exact h

theorem scaleInv_iteration (pi : α) (batch : List Event) (s : LoopState α) (h : ScaleInv s) :
    ScaleInv (iteration pi batch s) := by
  obtain ⟨h1, h2⟩ := h
  have hu : (pollEvents batch s).globals.uniscale = 0.3 := by
    rw [pollEvents_uniscale]; exact h1
  refine ⟨?_, ?_⟩
  · show (drawgl pi (pollEvents batch s).globals).1.uniscale = 0.3
    rw [drawgl_uniscale]; exact hu
  · intro x hx
    rw [iteration_trace] at hx
    simp only [pushedScales_append, pushedScales_polls, pushedScales_drawgl, List.append_nil,
      List.mem_append, List.mem_singleton] at hx
    rcases hx with ((hx | hx) | hx) | hx
    · exact h2 x hx
    · simp [pushedScales, scaleOf] at hx
    · rw [hx]; exact hu
    · simp [pushedScales, scaleOf] at hx

theorem scaleInv_exec (pi : α) (acts : List Action) (s : LoopState α) (h : ScaleInv s) :
    ScaleInv (exec pi acts s) := by
  induction acts generalizing s with
  | nil => exact h
  | cons a acts ih =>
    cases a with
    | frame =>
      simp only [exec]
      apply ih
      obtain ⟨h1, h2⟩ := h
      refine ⟨?_, ?_⟩
      · show (drawgl pi s.globals).1.uniscale = 0.3
        rw [drawgl_uniscale]; exact h1
      · intro x hx
        simp only [pushedScales_append, pushedScales_drawgl, List.mem_append,
          List.mem_singleton] at hx
        rcases hx with hx | hx
        · exact h2 x hx
        · rw [hx]; exact h1
    | handle e =>
      simp only [exec]
      exact ih _ (scaleInv_handleEvent e s h)

theorem scaleInv_mainLoop (pi : α) (bs : List (List Event)) (s : LoopState α)
    (h : ScaleInv s) : ScaleInv (mainLoop pi bs s) := by
  induction bs generalizing s with
  | nil => exact h
  | cons b bs ih =>
    simp only [mainLoop]
    split
    · exact ih _ (scaleInv_iteration pi b s h)
    · exact h

/-- C6: after every finite sequence of per-frame updates and handled events from
the initial state, and after every run of the render loop, uniscale is 0.3 and the
fourth component of every uniform vector pushed is 0.3. -/
theorem C6_scale_invariant (pi : α) (loc : Int) (acts : List Action)
    (bs : List (List Event)) :
    ((exec pi acts (mainStart loc)).globals.uniscale = 0.3
      ∧ ∀ x ∈ pushedScales (exec pi acts (mainStart loc)).trace, x = 0.3)
    ∧ ((mainLoop pi bs (mainStart loc)).globals.uniscale = 0.3
      ∧ ∀ x ∈ pushedScales (mainLoop pi bs (mainStart loc)).trace, x = 0.3) :=
  ⟨scaleInv_exec pi acts _ (scaleInv_mainStart loc),
   scaleInv_mainLoop pi bs _ (scaleInv_mainStart loc)⟩

/-! ### Radians pushed by the k-th frame -/

theorem pushed_yaw_ne_one (n : Nat) : ((20.0 : ℝ) - (n : ℝ)) * (Real.pi / 180.0) ≠ 1.0 := by
  intro h
  have h20 : ((20 : ℝ) - (n : ℝ)) ≠ 0 := by
    intro h0
    norm_num [h0] at h
  have hpi : Real.pi = (((180 : ℚ) / ((20 : ℚ) - (n : ℚ)) : ℚ) : ℝ) := by
    push_cast
    field_simp
    norm_num at h
    field_simp at h
    linarith
  exact irrational_pi.ne_rat _ hpi

/-- C9: the radians pushed by a call of drawgl come from the degree counters as
they are before the decrement of that call.  On the k-th call (k at least 1) from a
state with scale 0.3 the uniform pushed is ((xrot - 0.2 (k-1)) pi/180,
(yrot - (k-1)) pi/180, (zrot - 0.5 (k-1)) pi/180, 0.3); the first frame of the
program pushes yaw = 20 pi/180, and over the reals no frame pushes the yaw 1.0; after
each call every stored radian is (its counter + its step) * pi/180. -/
theorem C9_radians_lag_one_frame (pi : α) (k : Nat) (g : Globals α)
    (hk : 1 ≤ k) (hs : g.uniscale = 0.3) :
    (drawgl pi (drawglTimes pi (k - 1) g)).2 =
        [Effect.Clear,
         Effect.Uniform4f g.UniScale
           ((g.xrot - 0.2 * ((k : α) - 1)) * (pi / 180))
           ((g.yrot - ((k : α) - 1)) * (pi / 180))
           ((g.zrot - 0.5 * ((k : α) - 1)) * (pi / 180))
           0.3,
         Effect.Clear,
         Effect.DrawArrays 0 36,
         Effect.Sleep 50]
    ∧ (∀ loc : Int, (drawgl pi (mainStart loc : LoopState α).globals).2 =
        [Effect.Clear,
         Effect.Uniform4f loc 0 (20 * (pi / 180)) 0 0.3,
         Effect.Clear,
         Effect.DrawArrays 0 36,
         Effect.Sleep 50])
    ∧ (∀ (n : Nat) (loc : Int) (r y p w : ℝ),
        Effect.Uniform4f loc r y p w
            ∈ (drawgl Real.pi (drawglTimes Real.pi n (initGlobals : Globals ℝ))).2 →
          y ≠ 1.0)
    ∧ ((drawglTimes pi k g).uniYaw = ((drawglTimes pi k g).yrot + 1.0) * (pi / 180)
      ∧ (drawglTimes pi k g).uniPitch = ((drawglTimes pi k g).zrot + 0.5) * (pi / 180)
      ∧ (drawglTimes pi k g).uniRoll = ((drawglTimes pi k g).xrot + 0.2) * (pi / 180)) := by
  obtain ⟨j, rfl⟩ : ∃ j, k = j + 1 := ⟨k - 1, by omega⟩
  refine ⟨?_, ?_, ?_, ?_⟩
  · obtain ⟨h1, h2, h3⟩ := drawglTimes_counters pi j g
    simp only [Nat.add_sub_cancel]
    rw [drawgl_effects, h1, h2, h3, drawglTimes_uniscale, drawglTimes_UniScale, hs]
    push_cast
    norm_num
  · intro loc
    rw [drawgl_effects]
    simp only [mainStart, initGlobals]
    norm_num
  · intro n loc r y p w hmem
    obtain ⟨h1, -, -⟩ := drawglTimes_counters Real.pi n (initGlobals : Globals ℝ)
    rw [drawgl_effects, h1] at hmem
    simp only [List.mem_cons, List.mem_singleton, List.not_mem_nil, or_false] at hmem
    rcases hmem with h | h | h | h | h
    · cases h
    · injection h with _ _ hy _ _
      rw [hy]
      exact pushed_yaw_ne_one n
    · cases h
    · cases h
    · cases h
  · rw [drawglTimes_succ_last]
    simp only [drawgl]
    norm_num

/-- Witness of C9: the first call from the initial state. -/
theorem C9_radians_lag_one_frame_witness :
    1 ≤ 1 ∧ (initGlobals : Globals ℝ).uniscale = 0.3
    ∧ (drawgl Real.pi (drawglTimes Real.pi (1 - 1) (initGlobals : Globals ℝ))).2 =
        [Effect.Clear,
         Effect.Uniform4f (initGlobals : Globals ℝ).UniScale
           (((initGlobals : Globals ℝ).xrot - 0.2 * (((1 : Nat) : ℝ) - 1)) * (Real.pi / 180))
           (((initGlobals : Globals ℝ).yrot - (((1 : Nat) : ℝ) - 1)) * (Real.pi / 180))
           (((initGlobals : Globals ℝ).zrot - 0.5 * (((1 : Nat) : ℝ) - 1)) * (Real.pi / 180))
           0.3,
         Effect.Clear,
         Effect.DrawArrays 0 36,
         Effect.Sleep 50] :=
  ⟨le_refl 1, rfl, (C9_radians_lag_one_frame Real.pi 1 initGlobals (le_refl 1) rfl).1⟩

/-! ### The vertex shader -/

/-- C7 fails as stated: for the position (1, 0, 0), scale 1 and the angles
(0, pi/2, 0) the shader yields z = 0.8, the standard rotation about Y yields
z = -1.2. -/
theorem C7_counterexample :
    (vertexShader Real.cos Real.sin ⟨1, 0, 0⟩ ⟨0, Real.pi / 2, 0, 1⟩).z
      ≠ (specTransform Real.cos Real.sin ⟨1, 0, 0⟩ 0 (Real.pi / 2) 0 1).z := by
  simp only [vertexShader, persp, moved, rotated, move, rotatex, rotatey, rotatez, scale, specTransform,
    specRotX, specRotY, specRotZ, Matrix.mulVec, Matrix.dotProduct, Fin.sum_univ_three,
    Real.cos_pi_div_two, Real.sin_pi_div_two, Real.cos_zero, Real.sin_zero]
  simp only [Matrix.of_apply, Matrix.cons_val_zero, Matrix.cons_val_one, Matrix.cons_val_two,
    Matrix.head_cons, Matrix.tail_cons, Matrix.cons_val', Matrix.empty_val',
    Matrix.cons_val_fin_one]
  norm_num

/-- C7 amended: over the reals the shader transform of a position p under the
uniform (a_z, a_y, a_x, s) is: scale p by s, apply the standard rotation matrix
about Z by a_z, then the standard rotation matrix about Y by the negated angle
-a_y, then the standard rotation matrix about X by a_x, translate z by -0.2, then
divide x and y by (z + 2) / 3 leaving z unchanged; the fourth output component
is 1. -/
theorem C7_shader_is_transform_with_negated_y_angle (p : Vec3 ℝ) (a_z a_y a_x s : ℝ) :
    vertexShader Real.cos Real.sin p ⟨a_z, a_y, a_x, s⟩
      = ⟨(specTransform Real.cos Real.sin p a_z (-a_y) a_x s).x,
         (specTransform Real.cos Real.sin p a_z (-a_y) a_x s).y,
         (specTransform Real.cos Real.sin p a_z (-a_y) a_x s).z,
         1⟩ := by
  simp only [vertexShader, persp, moved, rotated, move, rotatex, rotatey, rotatez, scale, specTransform,
    specRotX, specRotY, specRotZ, Matrix.mulVec, Matrix.dotProduct, Fin.sum_univ_three,
    Real.cos_neg, Real.sin_neg]
  simp only [Matrix.of_apply, Matrix.cons_val_zero, Matrix.cons_val_one, Matrix.cons_val_two,
    Matrix.head_cons, Matrix.tail_cons, Matrix.cons_val', Matrix.empty_val',
    Matrix.cons_val_fin_one]
  congr 1 <;> norm_num <;> ring_nf

/-! ### The vertex buffer -/

theorem cubeVertices_length : (cubeVertices : List α).length = 216 := rfl

theorem drawReads_eq : drawReads 0 drawCount = (List.range 216).map (fun j => 4 * j) := by
  decide

/-- The positions fetched for the 36 vertices of the draw call. -/
theorem vertexPositions_eq :
    (List.range drawCount).map (fun i => (vertexPosition i : Option (Vec3 α))) =
      [
       some ⟨-1.0, -1.0, -1.0⟩,
       some ⟨1.0, -1.0, -1.0⟩,
       some ⟨-1.0, -1.0, 1.0⟩,
       some ⟨1.0, -1.0, -1.0⟩,
       some ⟨1.0, -1.0, 1.0⟩,
       some ⟨-1.0, -1.0, 1.0⟩,
       some ⟨-1.0, 1.0, -1.0⟩,
       some ⟨-1.0, 1.0, 1.0⟩,
       some ⟨1.0, 1.0, -1.0⟩,
       some ⟨1.0, 1.0, -1.0⟩,
       some ⟨-1.0, 1.0, 1.0⟩,
       some ⟨1.0, 1.0, 1.0⟩,
       some ⟨-1.0, -1.0, 1.0⟩,
       some ⟨1.0, -1.0, 1.0⟩,
       some ⟨-1.0, 1.0, 1.0⟩,
       some ⟨1.0, -1.0, 1.0⟩,
       some ⟨1.0, 1.0, 1.0⟩,
       some ⟨-1.0, 1.0, 1.0⟩,
       some ⟨-1.0, -1.0, -1.0⟩,
       some ⟨-1.0, 1.0, -1.0⟩,
       some ⟨1.0, -1.0, -1.0⟩,
       some ⟨1.0, -1.0, -1.0⟩,
       some ⟨-1.0, 1.0, -1.0⟩,
       some ⟨1.0, 1.0, -1.0⟩,
       some ⟨-1.0, -1.0, 1.0⟩,
       some ⟨-1.0, 1.0, -1.0⟩,
       some ⟨-1.0, -1.0, -1.0⟩,
       some ⟨-1.0, -1.0, 1.0⟩,
       some ⟨-1.0, 1.0, 1.0⟩,
       some ⟨-1.0, 1.0, -1.0⟩,
       some ⟨1.0, -1.0, 1.0⟩,
       some ⟨1.0, -1.0, -1.0⟩,
       some ⟨1.0, 1.0, -1.0⟩,
       some ⟨1.0, -1.0, 1.0⟩,
       some ⟨1.0, 1.0, -1.0⟩,
       some ⟨1.0, 1.0, 1.0⟩] := rfl

/-- Every vertex of the draw call has a position in the buffer, with coordinates
-1 or 1. -/
theorem vertexPosition_coords (i : Nat) (hi : i < drawCount) :
    ∃ p : Vec3 α, vertexPosition i = some p
      ∧ (p.x = -1 ∨ p.x = 1) ∧ (p.y = -1 ∨ p.y = 1) ∧ (p.z = -1 ∨ p.z = 1) := by
  have hmem : (vertexPosition i : Option (Vec3 α))
      ∈ (List.range drawCount).map (fun i => (vertexPosition i : Option (Vec3 α))) :=
    List.mem_map.mpr ⟨i, List.mem_range.mpr hi, rfl⟩
  rw [vertexPositions_eq] at hmem
  simp only [List.mem_cons, List.mem_singleton, List.not_mem_nil, or_false] at hmem
  rcases hmem with h | h | h | h | h | h | h | h | h | h | h | h | h | h | h | h | h | h | h | h | h | h | h | h | h | h | h | h | h | h | h | h | h | h | h | h
  all_goals exact ⟨_, h, by norm_num, by norm_num, by norm_num⟩

theorem drawReads_in_bounds (b : Nat) (hb : b ∈ drawReads 0 drawCount) :
    b + 4 ≤ bufferBytes (cubeVertices : List α)
      ∧ (floatAt (cubeVertices : List α) b).isSome = true := by
  rw [drawReads_eq] at hb
  obtain ⟨j, hj, rfl⟩ := List.mem_map.mp hb
  have hj216 : j < 216 := List.mem_range.mp hj
  refine ⟨?_, ?_⟩
  · simp only [bufferBytes, cubeVertices_length]
    omega
  · have h4 : 4 * j % 4 = 0 := by omega
    have hd : 4 * j / 4 = j := by omega
    have hl : j < (cubeVertices : List α).length := by rw [cubeVertices_length]; exact hj216
    simp only [floatAt, h4, if_true, hd]
    rw [List.getElem?_eq_getElem hl]
    rfl

/-- C8: cubeVertices holds 216 floats, 36 vertices of 6 floats; the vertex count of
the draw call, 6*2*3, is 36 = 12 * 3; with stride 6 floats and offsets 0 and 3
floats the draw call reads the floats 0 to 215 of the buffer, each once, every read
lies inside the buffer, and every position coordinate is -1 or 1. -/
theorem C8_draw_reads_whole_buffer :
    (cubeVertices : List α).length = 216
    ∧ (cubeVertices : List α).length = 36 * 6
    ∧ drawCount = 36
    ∧ drawCount = 12 * 3
    ∧ (positionAttrib.stride = 6 * 4 ∧ positionAttrib.offset = 0
        ∧ colorAttrib.stride = 6 * 4 ∧ colorAttrib.offset = 3 * 4)
    ∧ drawReads 0 drawCount = (List.range 216).map (fun j => 4 * j)
    ∧ (∀ b ∈ drawReads 0 drawCount,
        b + 4 ≤ bufferBytes (cubeVertices : List α)
          ∧ (floatAt (cubeVertices : List α) b).isSome = true)
    ∧ (∀ i, i < drawCount →
        ∃ p : Vec3 α, vertexPosition i = some p
          ∧ (p.x = -1 ∨ p.x = 1) ∧ (p.y = -1 ∨ p.y = 1) ∧ (p.z = -1 ∨ p.z = 1)) :=
  ⟨rfl, rfl, rfl, rfl, ⟨rfl, rfl, rfl, rfl⟩, drawReads_eq, drawReads_in_bounds,
    vertexPosition_coords⟩

/-! ### The perspective divide on the cube -/

theorem normSq_rotatez (v : Vec3 ℝ) (u : Vec4 ℝ) :
    normSq (rotatez Real.cos Real.sin v u) = normSq v := by
  simp only [normSq, rotatez]
  linear_combination (v.x ^ 2 + v.y ^ 2) * Real.cos_sq_add_sin_sq u.x

theorem normSq_rotatey (v : Vec3 ℝ) (u : Vec4 ℝ) :
    normSq (rotatey Real.cos Real.sin v u) = normSq v := by
  simp only [normSq, rotatey]
  linear_combination (v.x ^ 2 + v.z ^ 2) * Real.cos_sq_add_sin_sq u.y

theorem normSq_rotatex (v : Vec3 ℝ) (u : Vec4 ℝ) :
    normSq (rotatex Real.cos Real.sin v u) = normSq v := by
  simp only [normSq, rotatex]
  linear_combination (v.y ^ 2 + v.z ^ 2) * Real.cos_sq_add_sin_sq u.z

theorem normSq_scale_cube (p : Vec3 ℝ) (u : Vec4 ℝ) (hw : u.w = 0.3)
    (hx : p.x = -1 ∨ p.x = 1) (hy : p.y = -1 ∨ p.y = 1) (hz : p.z = -1 ∨ p.z = 1) :
    normSq (scale p u) = 0.27 := by
  have h1 : p.x * p.x = 1 := by rcases hx with h | h <;> rw [h] <;> norm_num
  have h2 : p.y * p.y = 1 := by rcases hy with h | h <;> rw [h] <;> norm_num
  have h3 : p.z * p.z = 1 := by rcases hz with h | h <;> rw [h] <;> norm_num
  simp only [normSq, scale, hw]
  linear_combination (0.09 : ℝ) * h1 + (0.09 : ℝ) * h2 + (0.09 : ℝ) * h3

/-- C10: for every vertex position of the draw call, scale 0.3 and every triple of
angles, each rotation stage preserves the Euclidean length, which is
0.3 * sqrt 3; after the translation z lies between -0.2 - 0.3 sqrt 3 and
-0.2 + 0.3 sqrt 3, and the divisor (z + 2) / 3 of the perspective divide is
strictly positive. -/
theorem C10_perspective_divisor_positive (i : Nat) (p : Vec3 ℝ) (a_z a_y a_x : ℝ)
    (hi : i < drawCount) (hp : vertexPosition i = some p) :
    (normSq (rotatez Real.cos Real.sin (scale p ⟨a_z, a_y, a_x, 0.3⟩) ⟨a_z, a_y, a_x, 0.3⟩)
        = normSq (scale p ⟨a_z, a_y, a_x, 0.3⟩)
      ∧ normSq (rotatey Real.cos Real.sin
          (rotatez Real.cos Real.sin (scale p ⟨a_z, a_y, a_x, 0.3⟩) ⟨a_z, a_y, a_x, 0.3⟩)
          ⟨a_z, a_y, a_x, 0.3⟩)
        = normSq (rotatez Real.cos Real.sin (scale p ⟨a_z, a_y, a_x, 0.3⟩)
          ⟨a_z, a_y, a_x, 0.3⟩)
      ∧ normSq (rotated Real.cos Real.sin p ⟨a_z, a_y, a_x, 0.3⟩)
        = normSq (rotatey Real.cos Real.sin
          (rotatez Real.cos Real.sin (scale p ⟨a_z, a_y, a_x, 0.3⟩) ⟨a_z, a_y, a_x, 0.3⟩)
          ⟨a_z, a_y, a_x, 0.3⟩))
    ∧ Real.sqrt (normSq (rotated Real.cos Real.sin p ⟨a_z, a_y, a_x, 0.3⟩))
        = 0.3 * Real.sqrt 3
    ∧ -0.2 - 0.3 * Real.sqrt 3 ≤ (moved Real.cos Real.sin p ⟨a_z, a_y, a_x, 0.3⟩).z
    ∧ (moved Real.cos Real.sin p ⟨a_z, a_y, a_x, 0.3⟩).z ≤ -0.2 + 0.3 * Real.sqrt 3
    ∧ 0 < ((moved Real.cos Real.sin p ⟨a_z, a_y, a_x, 0.3⟩).z + 2) / 3 := by
  obtain ⟨q, hq, hx, hy, hz⟩ := @vertexPosition_coords ℝ _ i hi
  have hpq : p = q := by
    rw [hp] at hq
    exact Option.some.inj hq
  subst hpq
  have hn : normSq (rotated Real.cos Real.sin p ⟨a_z, a_y, a_x, 0.3⟩) = 0.27 := by
    simp only [rotated]
    rw [normSq_rotatex, normSq_rotatey, normSq_rotatez]
    exact normSq_scale_cube p _ rfl hx hy hz
  have hs3 : Real.sqrt 3 ^ 2 = 3 := Real.sq_sqrt (by norm_num)
  have hs0 : 0 ≤ Real.sqrt 3 := Real.sqrt_nonneg 3
  have hs2 : Real.sqrt 3 ≤ 2 := by nlinarith
  have hz2 : (rotated Real.cos Real.sin p ⟨a_z, a_y, a_x, 0.3⟩).z ^ 2 ≤ 0.27 := by
    have h0 := hn
    simp only [normSq] at h0
    nlinarith [mul_self_nonneg (rotated Real.cos Real.sin p ⟨a_z, a_y, a_x, 0.3⟩).x,
      mul_self_nonneg (rotated Real.cos Real.sin p ⟨a_z, a_y, a_x, 0.3⟩).y]
  have hb : -(0.3 * Real.sqrt 3) ≤ (rotated Real.cos Real.sin p ⟨a_z, a_y, a_x, 0.3⟩).z
      ∧ (rotated Real.cos Real.sin p ⟨a_z, a_y, a_x, 0.3⟩).z ≤ 0.3 * Real.sqrt 3 := by
    apply abs_le_of_sq_le_sq'
    · calc (rotated Real.cos Real.sin p ⟨a_z, a_y, a_x, 0.3⟩).z ^ 2 ≤ 0.27 := hz2
        _ = (0.3 * Real.sqrt 3) ^ 2 := by rw [mul_pow, hs3]; norm_num
    · positivity
  have hm : (moved Real.cos Real.sin p ⟨a_z, a_y, a_x, 0.3⟩).z
      = (rotated Real.cos Real.sin p ⟨a_z, a_y, a_x, 0.3⟩).z - 0.2 := rfl
  refine ⟨⟨normSq_rotatez _ _, normSq_rotatey _ _, normSq_rotatex _ _⟩, ?_, ?_, ?_, ?_⟩
  · rw [hn]
    have h27 : (0.27 : ℝ) = (0.3 * Real.sqrt 3) ^ 2 := by rw [mul_pow, hs3]; norm_num
    rw [h27]
    exact Real.sqrt_sq (by positivity)
  · rw [hm]; linarith [hb.1]
  · rw [hm]; linarith [hb.2]
  · rw [hm]
    have : (0 : ℝ) < (rotated Real.cos Real.sin p ⟨a_z, a_y, a_x, 0.3⟩).z - 0.2 + 2 := by
      nlinarith [hb.1]
    positivity

/-- Witness of C10: the first vertex of the buffer under the angles (1, 2, 3). -/
theorem C10_perspective_divisor_positive_witness :
    0 < drawCount
    ∧ (vertexPosition 0 : Option (Vec3 ℝ)) = some ⟨-1.0, -1.0, -1.0⟩
    ∧ 0 < ((moved Real.cos Real.sin (⟨-1.0, -1.0, -1.0⟩ : Vec3 ℝ) ⟨1, 2, 3, 0.3⟩).z + 2) / 3 :=
  ⟨by decide, rfl,
    (C10_perspective_divisor_positive 0 ⟨-1.0, -1.0, -1.0⟩ 1 2 3 (by decide) rfl).2.2.2.2⟩

end KubeGo
